import Mathlib

/-!
Verification of the agent task-orchestration engine and its execution
sandbox (src/vs/services/ai/node/agentServiceImpl.ts and
src/vs/services/ai/node/agentSandbox.ts), as a shallow embedding.

Conventions of the embedding:
* JavaScript strings are Lean `String`; scans over characters use `.data`.
* Platform primitives (the regular-expression engine used for
  caller-supplied allow-list entries written as /.../, and JSON.parse)
  are abstracted as function parameters; everything else is translated
  directly from the source.
* Asynchronous failure sources (process events, the three-way race in
  executeInVM) are modelled as explicit outcome values fed to the
  function; a TypeScript `throw` is an `Except.error` result.
-/

namespace Sandbox

/-- squote is the single-quote character (code point 39). -/
def squote : Char := Char.ofNat 39

/-- jsStartsWith s p is the JavaScript s.startsWith(p). -/
def jsStartsWith (s p : String) : Bool := p.data.isPrefixOf s.data

/-- jsEndsWith s p is the JavaScript s.endsWith(p). -/
def jsEndsWith (s p : String) : Bool := p.data.isSuffixOf s.data

/-- The built-in default allow-list of agentSandbox.ts (isCommandAllowed,
lines 428-436). -/
def defaultAllowed : List String :=
  ["npm test", "npm run test", "npx jest", "npx mocha", "npx tsc", "node",
   "python -m pytest"]

/-- isCommandAllowed (agentSandbox.ts lines 425-448). `regexTest pat cmd`
abstracts `new RegExp(pat).test(cmd)`; `none` models an absent
allowedCommands argument. -/
def isCommandAllowed (regexTest : String → String → Bool)
    (command : String) (allowedCommands : Option (List String)) : Bool :=
  match allowedCommands with
  | none => defaultAllowed.any (fun allowed => jsStartsWith command allowed)
  | some cs =>
    if cs.length = 0 then
      defaultAllowed.any (fun allowed => jsStartsWith command allowed)
    else
      cs.any (fun allowed =>
        if jsStartsWith allowed "/" && jsEndsWith allowed "/" then
          regexTest (String.mk ((allowed.data.drop 1).dropLast)) command
        else
          jsStartsWith command allowed)

/-- parseCommand character loop (agentSandbox.ts lines 450-481).
Arguments mirror the loop variables inQuotes, quoteChar, current. -/
def parseCommandAux (inQuotes : Bool) (quoteChar : Option Char)
    (current : List Char) : List Char → List (List Char)
  | [] => if current = [] then [] else [current]
  | c :: rest =>
    if (c = '"' ∨ c = squote) ∧ ¬inQuotes then
      parseCommandAux true (some c) current rest
    else if quoteChar = some c ∧ inQuotes then
      parseCommandAux false none current rest
    else if c = ' ' ∧ ¬inQuotes then
      if current = [] then parseCommandAux inQuotes quoteChar current rest
      else current :: parseCommandAux inQuotes quoteChar [] rest
    else
      parseCommandAux inQuotes quoteChar (current ++ [c]) rest

/-- parseCommand (agentSandbox.ts lines 450-481): quote-aware
whitespace-delimited tokenizer. -/
def parseCommand (command : String) : List String :=
  (parseCommandAux false none [] command.data).map String.mk

/-- SandboxExecutionResult (agentSandbox.ts lines 106-113). -/
structure SandboxExecutionResult where
  success : Bool
  stdout : String
  stderr : String
  exitCode : Int
  duration : Nat
deriving DecidableEq

/-- The event that ends a spawned test process: either a close event with
the (possibly null) exit code and the accumulated output, or an error
event with the error message. -/
inductive ProcEvent
  | closed (code : Option Int) (stdout stderr : String)
  | errored (message : String) (stdout stderr : String)
deriving DecidableEq

/-- JavaScript `code || 0` for code of type number-or-null. -/
def jsOrZero : Option Int → Int
  | none => 0
  | some c => c

/-- Result of a call to executeTests: an immediate return with no process
spawned, a rejection of the returned promise (an exception reaching the
caller), or a spawn of the tokenized command followed by the result
built from the terminating process event. -/
inductive TestsRun
  | noSpawn (result : SandboxExecutionResult)
  | thrown
  | spawned (argv : List String) (result : SandboxExecutionResult)
deriving DecidableEq

/-- executeTests (agentSandbox.ts lines 212-329). `elapsed` stands for the
wall-clock duration measured by the code. `setupFailure` is `some msg`
when the awaited createFolder call rejects with that message: that
rejection is caught by the catch block (lines 319-328), which returns a
failed result before any process is spawned. When setup succeeds, the
command is tokenized and destructured as `const [cmd, ...args]`; the
catch block wraps `return new Promise(...)` without awaiting it, so a
synchronous throw inside the promise executor bypasses it and rejects
the returned promise — spawn applied to an undefined cmd throws exactly
when the tokenizer yields no parts, so that case is `TestsRun.thrown`.
Otherwise `ev` is the process event that settles the promise; a timeout
or a cancellation kills the child, which then surfaces as a close event
whose code is null (`closed none`). -/
def executeTests (regexTest : String → String → Bool) (testCommand : String)
    (allowedCommands : Option (List String)) (elapsed : Nat)
    (setupFailure : Option String) (ev : ProcEvent) : TestsRun :=
  if isCommandAllowed regexTest testCommand allowedCommands = false then
    .noSpawn { success := false, stdout := "",
               stderr := "Command not allowed: " ++ testCommand,
               exitCode := 1, duration := elapsed }
  else
    match setupFailure with
    | some msg =>
      .noSpawn { success := false, stdout := "", stderr := msg,
                 exitCode := 1, duration := elapsed }
    | none =>
      match parseCommand testCommand with
      | [] => .thrown
      | cmd :: args =>
        .spawned (cmd :: args)
          (match ev with
           | .closed code out err =>
             { success := decide (code = some 0), stdout := out,
               stderr := err, exitCode := jsOrZero code,
               duration := elapsed }
           | .errored msg out _err =>
             { success := false, stdout := out, stderr := msg,
               exitCode := 1, duration := elapsed })

/-- Winner of the three-way race inside executeInVM (agentSandbox.ts lines
170-179), plus the rejection path of the exec call itself. A rejection
carries the optional stdout, stderr and code fields of the error object
and its message. -/
inductive VMOutcome
  | completed (stdout stderr : String)
  | execRejected (stdout stderr : Option String) (message : String)
      (code : Option Int)
  | timeoutWon (timeoutMs : Nat)
  | cancelledWon
deriving DecidableEq

/-- JavaScript `a || b` where a is a possibly-absent string. -/
def jsOrStr : Option String → String → String
  | none, b => b
  | some a, b => if a = "" then b else a

/-- JavaScript `c || 1` where c is a possibly-absent number. -/
def jsOrOne : Option Int → Int
  | none => 1
  | some c => if c = 0 then 1 else c

/-- executeInVM (agentSandbox.ts lines 144-206). Every non-completed
outcome lands in the catch block, which reads the stdout, stderr, code
and message fields of the caught error: the timeout promise rejects with
the message `Execution timeout after Nms`, the cancellation promise with
`Execution cancelled`, and neither carries stdout, stderr or code. -/
def executeInVM (_sourceText : String) (elapsed : Nat)
    (outcome : VMOutcome) : SandboxExecutionResult :=
  match outcome with
  | .completed out err =>
    { success := true, stdout := out, stderr := err, exitCode := 0,
      duration := elapsed }
  | .execRejected out err msg c =>
    { success := false, stdout := jsOrStr out "", stderr := jsOrStr err msg,
      exitCode := jsOrOne c, duration := elapsed }
  | .timeoutWon t =>
    { success := false, stdout := "",
      stderr := "Execution timeout after " ++ toString t ++ "ms",
      exitCode := 1, duration := elapsed }
  | .cancelledWon =>
    { success := false, stdout := "", stderr := "Execution cancelled",
      exitCode := 1, duration := elapsed }

/-- Tokens of the dangerous-pattern regular expressions of validateChanges:
a literal character sequence, a single character from a class, and the
JavaScript whitespace repetitions backslash-s-star and backslash-s-plus. -/
inductive PatTok
  | lit (cs : List Char)
  | cls (cs : List Char)
  | ws0
  | ws1
deriving DecidableEq

/-- isJsWs c holds for the characters matched by the JavaScript
backslash-s class. -/
def isJsWs (c : Char) : Bool :=
  c = ' ' ∨ c = '\t' ∨ c = '\n' ∨ c = '\x0b' ∨ c = '\x0c' ∨ c = '\r' ∨
  c = Char.ofNat 0xa0 ∨ c = Char.ofNat 0x1680 ∨
  (Char.ofNat 0x2000 ≤ c ∧ c ≤ Char.ofNat 0x200a) ∨
  c = Char.ofNat 0x2028 ∨ c = Char.ofNat 0x2029 ∨ c = Char.ofNat 0x202f ∨
  c = Char.ofNat 0x205f ∨ c = Char.ofNat 0x3000 ∨ c = Char.ofNat 0xfeff

/-- matchToks p s: the token sequence p matches some prefix of s
(with backtracking for the whitespace repetitions). -/
def matchToks : List PatTok → List Char → Bool
  | [], _ => true
  | .lit l :: ts, s => l.isPrefixOf s && matchToks ts (s.drop l.length)
  | .cls _ :: _, [] => false
  | .cls cs :: ts, c :: s => cs.contains c && matchToks ts s
  | .ws0 :: ts, [] => matchToks ts []
  | .ws0 :: ts, c :: s =>
    matchToks ts (c :: s) || (isJsWs c && matchToks (.ws0 :: ts) s)
  | .ws1 :: _, [] => false
  | .ws1 :: ts, c :: s => isJsWs c && matchToks (.ws0 :: ts) s
termination_by ts s => ts.length + s.length
decreasing_by
  all_goals simp_wf
  all_goals omega

/-- patSearch p s: the JavaScript RegExp.test, searching for a match of p
at any position of s. -/
def patSearch (p : List PatTok) : List Char → Bool
  | [] => matchToks p []
  | c :: t => matchToks p (c :: t) || patSearch p t

/-- containsSub needle hay: needle occurs as a contiguous substring of
hay (used to state the claim about content containing the text eval-
open-paren). -/
def containsSub (needle : List Char) : List Char → Bool
  | [] => needle.isPrefixOf []
  | c :: t => needle.isPrefixOf (c :: t) || containsSub needle t

/-- The dangerous-pattern token sequence for dynamic evaluation,
eval backslash-s-star open-paren (agentSandbox.ts line 345). -/
def evalPat : List PatTok := [.lit ['e', 'v', 'a', 'l'], .ws0, .lit ['(']]

/-- The dangerousPatterns list of validateChanges (agentSandbox.ts lines
344-352), each paired with the source text of the RegExp as interpolated
into the error message. -/
def dangerousPatterns : List (List PatTok × String) :=
  [ (evalPat, "/eval\\s*\\(/"),
    ([.lit ['F', 'u', 'n', 'c', 't', 'i', 'o', 'n'], .ws0, .lit ['(']],
     "/Function\\s*\\(/"),
    ([.lit ['r', 'e', 'q', 'u', 'i', 'r', 'e'], .ws0, .lit ['('], .ws0,
      .cls [squote, '"'],
      .lit ['c', 'h', 'i', 'l', 'd', '_', 'p', 'r', 'o', 'c', 'e', 's', 's'],
      .cls [squote, '"']],
     "/require\\s*\\(\\s*[\x27\"]child_process[\x27\"]/"),
    ([.lit ['r', 'e', 'q', 'u', 'i', 'r', 'e'], .ws0, .lit ['('], .ws0,
      .cls [squote, '"'], .lit ['f', 's'], .cls [squote, '"']],
     "/require\\s*\\(\\s*[\x27\"]fs[\x27\"]/"),
    ([.lit ['p', 'r', 'o', 'c', 'e', 's', 's', '.', 'e', 'x', 'i', 't']],
     "/process\\.exit/"),
    ([.lit ['r', 'm'], .ws1, .lit ['-', 'r', 'f']], "/rm\\s+-rf/"),
    ([.lit ['r', 'm', 'd', 'i', 'r'], .ws1, .lit ['/', 's']],
     "/rmdir\\s+\\/s/") ]

/-- One file handed to validateChanges: the rendered uri (uri.toString()),
the uri path, and the content as a character list. -/
structure FileChange where
  uriString : String
  path : String
  content : List Char
deriving DecidableEq

/-- The per-file error messages collected by the dangerous-pattern loop of
validateChanges (agentSandbox.ts lines 343-359): one entry per matching
pattern, in pattern order. -/
def fileErrors (f : FileChange) : List String :=
  (dangerousPatterns.filter (fun p => patSearch p.1 f.content)).map
    (fun p => "Dangerous pattern detected in " ++ f.uriString ++ ": " ++ p.2)

/-- joinErrors files: the errors array after the dangerous-pattern loop
has run over every file, in file order. -/
def joinErrors : List FileChange → List String
  | [] => []
  | f :: fs => fileErrors f ++ joinErrors fs

/-- isTsFile f: the filter deciding which files trigger the optional
TypeScript syntax check (agentSandbox.ts line 362). -/
def isTsFile (f : FileChange) : Bool :=
  jsEndsWith f.path ".ts" || jsEndsWith f.path ".tsx"

/-- Result shape of validateChanges. -/
structure ValidationResult where
  valid : Bool
  errors : List String
deriving DecidableEq

/-- validateChanges (agentSandbox.ts lines 335-384). `skipTsCheck` models
a set SKIP_TS_CHECK environment entry; `tsCheckFailure` is `some stderr`
when the delegated executeInVM call returned an unsuccessful result and
`none` when it succeeded or threw (a throw only logs a debug line). -/
def validateChanges (files : List FileChange) (skipTsCheck : Bool)
    (tsCheckFailure : Option String) : ValidationResult :=
  let errs := joinErrors files
  let errs :=
    if (files.any isTsFile) ∧ ¬skipTsCheck then
      match tsCheckFailure with
      | some m => errs ++ ["TypeScript validation failed: " ++ m]
      | none => errs
    else errs
  { valid := errs.isEmpty, errors := errs }

end Sandbox


namespace Sandbox

/-! SHA-256, as used by generateSandboxId (agentSandbox.ts lines 412-414):
`createHash(sha256).update(content).digest(hex).substring(0, 16)`.
Words are Nat values reduced modulo 2 to the 32. -/

/-- MOD32 is 2 to the power 32. -/
def MOD32 : Nat := 4294967296

/-- add32: 32-bit wrapping addition. -/
def add32 (a b : Nat) : Nat := (a + b) % MOD32

/-- rotr n x: rotate the 32-bit word x right by n. -/
def rotr (n x : Nat) : Nat := (x / 2 ^ n + x % 2 ^ n * 2 ^ (32 - n)) % MOD32

/-- shr n x: logical right shift of the 32-bit word x by n. -/
def shr (n x : Nat) : Nat := x / 2 ^ n

/-- not32 x: bitwise complement within 32 bits. -/
def not32 (x : Nat) : Nat := Nat.xor x (MOD32 - 1)

/-- bigSigma0 of the SHA-256 compression function. -/
def bigSigma0 (x : Nat) : Nat :=
  Nat.xor (Nat.xor (rotr 2 x) (rotr 13 x)) (rotr 22 x)

/-- bigSigma1 of the SHA-256 compression function. -/
def bigSigma1 (x : Nat) : Nat :=
  Nat.xor (Nat.xor (rotr 6 x) (rotr 11 x)) (rotr 25 x)

/-- smallSigma0 of the SHA-256 message schedule. -/
def smallSigma0 (x : Nat) : Nat :=
  Nat.xor (Nat.xor (rotr 7 x) (rotr 18 x)) (shr 3 x)

/-- smallSigma1 of the SHA-256 message schedule. -/
def smallSigma1 (x : Nat) : Nat :=
  Nat.xor (Nat.xor (rotr 17 x) (rotr 19 x)) (shr 10 x)

/-- ch, the choice function of SHA-256. -/
def ch (x y z : Nat) : Nat :=
  Nat.xor (Nat.land x y) (Nat.land (not32 x) z)

/-- maj, the majority function of SHA-256. -/
def maj (x y z : Nat) : Nat :=
  Nat.xor (Nat.xor (Nat.land x y) (Nat.land x z)) (Nat.land y z)

/-- The 64 SHA-256 round constants. -/
def kConst : List Nat :=
  [1116352408, 1899447441, 3049323471, 3921009573,
   961987163, 1508970993, 2453635748, 2870763221,
   3624381080, 310598401, 607225278, 1426881987,
   1925078388, 2162078206, 2614888103, 3248222580,
   3835390401, 4022224774, 264347078, 604807628,
   770255983, 1249150122, 1555081692, 1996064986,
   2554220882, 2821834349, 2952996808, 3210313671,
   3336571891, 3584528711, 113926993, 338241895,
   666307205, 773529912, 1294757372, 1396182291,
   1695183700, 1986661051, 2177026350, 2456956037,
   2730485921, 2820302411, 3259730800, 3345764771,
   3516065817, 3600352804, 4094571909, 275423344,
   430227734, 506948616, 659060556, 883997877,
   958139571, 1322822218, 1537002063, 1747873779,
   1955562222, 2024104815, 2227730452, 2361852424,
   2428436474, 2756734187, 3204031479, 3329325298]

/-- The SHA-256 initial hash state. -/
def hInit : List Nat :=
  [1779033703, 3144134277, 1013904242, 2773480762,
   1359893119, 2600822924, 528734635, 1541459225]

/-- wAt w i: the word at index i, zero past the end. -/
def wAt (w : List Nat) (i : Nat) : Nat := w.getD i 0

/-- extendWords n w: append n words of the SHA-256 message schedule. -/
def extendWords : Nat → List Nat → List Nat
  | 0, w => w
  | n + 1, w =>
    let t := w.length
    let nw := add32 (add32 (smallSigma1 (wAt w (t - 2))) (wAt w (t - 7)))
                    (add32 (smallSigma0 (wAt w (t - 15))) (wAt w (t - 16)))
    extendWords n (w ++ [nw])

/-- roundStep: one round of the SHA-256 compression function on the
eight-word state, fed one round constant and one schedule word. -/
def roundStep (st : List Nat) (kw : Nat × Nat) : List Nat :=
  match st with
  | [a, b, c, d, e, f, g, h] =>
    let t1 := add32 h (add32 (bigSigma1 e)
                 (add32 (ch e f g) (add32 kw.1 kw.2)))
    let t2 := add32 (bigSigma0 a) (maj a b c)
    [add32 t1 t2, a, b, c, add32 d t1, e, f, g]
  | other => other

/-- compressBlock h block: the SHA-256 compression of one 16-word block
into the running eight-word state h. -/
def compressBlock (h : List Nat) (block : List Nat) : List Nat :=
  let w := extendWords 48 block
  let st := (kConst.zip w).foldl roundStep h
  (h.zip st).map (fun p => add32 p.1 p.2)

/-- bytesBE k n: the k-byte big-endian encoding of n. -/
def bytesBE : Nat → Nat → List Nat
  | 0, _ => []
  | k + 1, n => (n / 2 ^ (8 * k)) % 256 :: bytesBE k n

/-- padMessage m: SHA-256 padding of the byte list m (append 0x80, zeros
to 56 modulo 64, then the 8-byte bit length). -/
def padMessage (m : List Nat) : List Nat :=
  m ++ 0x80 :: List.replicate ((119 - m.length % 64) % 64) 0 ++
    bytesBE 8 (m.length * 8)

/-- toWords: group a byte list into big-endian 32-bit words. -/
def toWords : List Nat → List Nat
  | a :: b :: c :: d :: rest =>
    (((a * 256 + b) * 256 + c) * 256 + d) :: toWords rest
  | _ => []

/-- toBlocks: group a word list into 16-word blocks. -/
def toBlocks (w : List Nat) : List (List Nat) :=
  if w = [] then [] else w.take 16 :: toBlocks (w.drop 16)
termination_by w.length
decreasing_by
  simp_wf
  rename_i h
  have : w.length ≠ 0 := fun hl => h (List.eq_nil_of_length_eq_zero hl)
  omega

/-- sha256Words m: the eight-word SHA-256 digest of the byte list m. -/
def sha256Words (m : List Nat) : List Nat :=
  (toBlocks (toWords (padMessage m))).foldl compressBlock hInit

/-- hexDigit n: the lower-case hexadecimal digit for n below 16 (digits
are code points 48-57, letters 97-102). -/
def hexDigit (n : Nat) : Char :=
  if n < 10 then Char.ofNat (48 + n) else Char.ofNat (87 + n)

/-- hexWord n: the eight-character hexadecimal rendering of a 32-bit
word. -/
def hexWord (n : Nat) : List Char :=
  (List.range 8).map (fun i => hexDigit (n / 16 ^ (7 - i) % 16))

/-- hexDigest ws: the hexadecimal rendering of a word list. -/
def hexDigest : List Nat → List Char
  | [] => []
  | w :: ws => hexWord w ++ hexDigest ws

/-- utf8Encode c: the UTF-8 bytes of one character, as produced by
Buffer conversion of a JavaScript string. -/
def utf8Encode (c : Char) : List Nat :=
  let n := c.toNat
  if n < 0x80 then [n]
  else if n < 0x800 then [0xc0 + n / 64, 0x80 + n % 64]
  else if n < 0x10000 then
    [0xe0 + n / 4096, 0x80 + n / 64 % 64, 0x80 + n % 64]
  else
    [0xf0 + n / 262144, 0x80 + n / 4096 % 64, 0x80 + n / 64 % 64,
     0x80 + n % 64]

/-- utf8Bytes s: the UTF-8 byte sequence of the string s. -/
def utf8Bytes : List Char → List Nat
  | [] => []
  | c :: cs => utf8Encode c ++ utf8Bytes cs

/-- generateSandboxId (agentSandbox.ts lines 412-414): the first 16
hexadecimal characters of the SHA-256 digest of the content. -/
def generateSandboxId (content : String) : String :=
  String.mk ((hexDigest (sha256Words (utf8Bytes content.data))).take 16)

end Sandbox

namespace Agent

/-- AgentTaskStatus (adaptivePromptBuilder.ts lines 267-273). -/
inductive TaskStatus
  | pending | running | completed | failed | cancelled
deriving DecidableEq

/-- AgentStepStatus (adaptivePromptBuilder.ts lines 294-300). -/
inductive StepStatus
  | pending | running | completed | failed | skipped
deriving DecidableEq

/-- AgentStepType (adaptivePromptBuilder.ts lines 285-292). -/
inductive StepType
  | search | generate | edit | test | verify | custom
deriving DecidableEq

/-- One entry of an AgentPlan (adaptivePromptBuilder.ts lines 302-308). -/
structure PlanStep where
  type : StepType
  description : String
deriving DecidableEq

/-- AgentPlan (adaptivePromptBuilder.ts lines 302-308). -/
structure AgentPlan where
  steps : List PlanStep
deriving DecidableEq

/-- Outcome of the awaited requestCompletion call inside planTask: the
provider either resolves with a response text or rejects. -/
inductive CompletionOutcome
  | response (text : String)
  | failure (message : String)
deriving DecidableEq

/-- jsonArrayMatch s: the match of the regular expression
bracket-anything-bracket (agentServiceImpl.ts line 88) on s — from the
first opening square bracket to the last closing square bracket, when the
latter lies strictly after the former. -/
def jsonArrayMatch (s : List Char) : Option (List Char) :=
  match s.findIdx? (fun c => c = '['), s.reverse.findIdx? (fun c => c = ']') with
  | some i, some r =>
    let j := s.length - 1 - r
    if i < j then some ((s.drop i).take (j - i + 1)) else none
  | _, _ => none

/-- The fallback plan built by planTask when the response text contains no
array match (agentServiceImpl.ts lines 94-102). -/
def fallbackPlan (description : String) : AgentPlan :=
  { steps :=
      [ ⟨.search, "Search for files related to: " ++ description⟩,
        ⟨.generate, "Generate code for: " ++ description⟩,
        ⟨.edit, "Apply changes"⟩,
        ⟨.verify, "Verify changes work correctly"⟩ ] }

/-- planTask (agentServiceImpl.ts lines 48-107). `jsonParse` abstracts
JSON.parse on the matched text (an `Except.error` is a JSON.parse throw);
`activeModel` is the result of getActiveModel; `outcome` is how the
provider call settles. `Except.error` in the result models a throw to the
caller: planTask throws when no model is configured, and its catch block
logs and rethrows both provider rejections and JSON.parse failures. -/
def planTask (jsonParse : String → Except String (List PlanStep))
    (activeModel : Option String) (description : String)
    (outcome : CompletionOutcome) : Except String AgentPlan :=
  match activeModel with
  | none => .error "No AI model configured"
  | some _ =>
    match outcome with
    | .failure msg => .error msg
    | .response text =>
      match jsonArrayMatch text.data with
      | some m =>
        match jsonParse (String.mk m) with
        | .ok steps => .ok { steps }
        | .error e => .error e
      | none => .ok (fallbackPlan description)

/-- One step record of a live task, tracking the fields executeSteps
mutates: status, whether a result value was attached, and the error
message (agentServiceImpl.ts lines 124-129; name and id never change). -/
structure StepState where
  name : String
  status : StepStatus
  hasResult : Bool
  error : Option String
deriving DecidableEq

/-- The mutable fields of a live AgentTask (agentServiceImpl.ts lines
131-138). -/
structure TaskState where
  status : TaskStatus
  steps : List StepState
  currentStep : Nat
  error : Option String
deriving DecidableEq

/-- pendingStep n: a freshly created step with the given name. -/
def pendingStep (n : String) : StepState :=
  { name := n, status := .pending, hasResult := false, error := none }

/-- initTask names: the task as stored by executeTask before the step
loop starts — status already Running, all steps Pending
(agentServiceImpl.ts lines 124-140). -/
def initTask (names : List String) : TaskState :=
  { status := .running, steps := names.map pendingStep, currentStep := 0,
    error := none }

/-- updNth f i l: the list l with the element at index i replaced by its
image under f, as updateStep patches one entry of the steps array. -/
def updNth (f : StepState → StepState) : Nat → List StepState → List StepState
  | _, [] => []
  | 0, x :: xs => f x :: xs
  | n + 1, x :: xs => x :: updNth f n xs

/-- markRunning: the updates at the top of a loop iteration — step i set
Running and currentStep set to i (agentServiceImpl.ts lines 202-203). -/
def markRunning (t : TaskState) (i : Nat) : TaskState :=
  { t with steps := updNth (fun s => { s with status := .running }) i t.steps,
           currentStep := i }

/-- completeStep: step i set Completed with its result attached
(agentServiceImpl.ts lines 207-210). -/
def completeStep (t : TaskState) (i : Nat) : TaskState :=
  { t with
    steps := updNth (fun s => { s with status := .completed, hasResult := true })
      i t.steps }

/-- failStep: step i set Failed with the error message attached
(agentServiceImpl.ts lines 213-216). -/
def failStep (t : TaskState) (i : Nat) (msg : String) : TaskState :=
  { t with
    steps := updNth (fun s => { s with status := .failed, error := some msg })
      i t.steps }

/-- How the handler of one step settles: the awaited executeStep call
either resolves or rejects with an error message. -/
inductive StepOutcome
  | success
  | failure (msg : String)
deriving DecidableEq

/-- failMessage names i msg: the task-level error recorded when a step
fails under stopOnError (agentServiceImpl.ts line 221). The step name is
read from the original steps array captured by the loop closure. -/
def failMessage (names : List String) (i : Nat) (msg : String) : String :=
  "Step " ++ names.getD i "" ++ " failed: " ++ msg

/-- cancelSeen cancelFrom i: whether token.isCancellationRequested is
observed true at the boundary check of iteration i. Cancellation is
monotone, so it is modelled by the first boundary index from which it is
seen (`none` = never). -/
def cancelSeen : Option Nat → Nat → Bool
  | none, _ => false
  | some c, i => c ≤ i

/-- stepLoop: the for loop of executeSteps (agentServiceImpl.ts lines
195-230) starting at iteration i on task state t. `names` is the
original steps array captured by the closure (only its names and length
are read); `outs j` is how the handler of step j settles. -/
def stepLoop (names : List String) (stop : Bool) (cancelFrom : Option Nat)
    (outs : Nat → StepOutcome) (i : Nat) (t : TaskState) : TaskState :=
  if i < names.length then
    if cancelSeen cancelFrom i then { t with status := .cancelled }
    else
      let t1 := markRunning t i
      match outs i with
      | .success =>
        stepLoop names stop cancelFrom outs (i + 1) (completeStep t1 i)
      | .failure msg =>
        let t2 := failStep t1 i msg
        if stop then
          { t2 with status := .failed, error := some (failMessage names i msg) }
        else stepLoop names stop cancelFrom outs (i + 1) t2
  else { t with status := .completed }
termination_by names.length - i
decreasing_by
  all_goals simp_wf
  all_goals omega

/-- Where control of the executeSteps loop sits: at a step boundary, or
suspended awaiting the handler of the current step. -/
inductive Phase
  | idle
  | inStep
deriving DecidableEq

/-- The state shared between an executing task and the service: the task
record in the task table, whether the task id is still in the
taskCancellations side table, whether its token has been cancelled, and
the control state of the executeSteps loop (`pc` is the loop index;
`loopActive` is false once executeSteps has returned). -/
structure SysState where
  task : TaskState
  inCancelTable : Bool
  cancelRequested : Bool
  pc : Nat
  loopActive : Bool
  phase : Phase
deriving DecidableEq

/-- initSys names: the state right after executeTask has stored the task
and started the loop (agentServiceImpl.ts lines 117-144). -/
def initSys (names : List String) : SysState :=
  { task := initTask names, inCancelTable := true, cancelRequested := false,
    pc := 0, loopActive := true, phase := .idle }

/-- Atomic transitions of one task. JavaScript is single threaded, so a
cancelTask call interleaves with the loop only at its await points:
`cancelTaskAct` is a cancelTask(id) call, `beginIter` is the loop head up
to dispatching the handler (cancellation check, step marked Running), and
`endIter` resumes after the handler settles (agentServiceImpl.ts lines
174-181 and 195-230). -/
inductive Action
  | cancelTaskAct
  | beginIter
  | endIter (out : StepOutcome)
deriving DecidableEq

/-- applyAction: the transition function of one task. cancelTask is a
no-op when the cancellation source is gone; it otherwise cancels the
token, sets the task status Cancelled and removes the source. The loop
actions run only while executeSteps is in flight and in the matching
phase. -/
def applyAction (names : List String) (stop : Bool) (a : Action)
    (s : SysState) : SysState :=
  match a with
  | .cancelTaskAct =>
    if s.inCancelTable then
      { s with cancelRequested := true,
               task := { s.task with status := .cancelled },
               inCancelTable := false }
    else s
  | .beginIter =>
    if s.loopActive ∧ s.phase = .idle then
      if s.pc < names.length then
        if s.cancelRequested then
          { s with task := { s.task with status := .cancelled },
                   loopActive := false }
        else
          { s with task := markRunning s.task s.pc, phase := .inStep }
      else
        { s with task := { s.task with status := .completed },
                 loopActive := false }
    else s
  | .endIter out =>
    if s.loopActive ∧ s.phase = .inStep then
      match out with
      | .success =>
        { s with task := completeStep s.task s.pc, pc := s.pc + 1,
                 phase := .idle }
      | .failure msg =>
        if stop then
          { s with task := { failStep s.task s.pc msg with
                             status := .failed,
                             error := some (failMessage names s.pc msg) },
                   loopActive := false, phase := .idle }
        else
          { s with task := failStep s.task s.pc msg, pc := s.pc + 1,
                   phase := .idle }
    else s

/-- run: fold a list of atomic actions over the state. -/
def run (names : List String) (stop : Bool) (acts : List Action)
    (s : SysState) : SysState :=
  acts.foldl (fun st a => applyAction names stop a st) s

end Agent


/-! Helper lemmas. -/

namespace Sandbox

theorem isPrefixOf_append_self (l t : List Char) :
    l.isPrefixOf (l ++ t) = true := by
  simp

theorem jsStartsWith_append (p r : String) : jsStartsWith (p ++ r) p = true := by
  simp [jsStartsWith, String.data_append, isPrefixOf_append_self]

theorem ne_empty_of_data_ne_nil (s : String) (h : s.data ≠ []) : s ≠ "" :=
  fun he => h (by rw [he])

theorem data_append_ne_nil (s t : String) (h : s.data ≠ []) :
    (s ++ t).data ≠ [] := by
  rw [String.data_append]
  intro he
  exact h (List.append_eq_nil.mp he).1

theorem jsOrStr_ne_empty (a : Option String) (b : String) (hb : b ≠ "") :
    jsOrStr a b ≠ "" := by
  cases a with
  | none => exact hb
  | some v =>
    simp only [jsOrStr]
    split
    · exact hb
    · assumption

theorem jsOrOne_ne_zero (c : Option Int) : jsOrOne c ≠ 0 := by
  cases c with
  | none => decide
  | some v =>
    simp only [jsOrOne]
    split
    · decide
    · assumption

/-- C10: with no caller-supplied allowedCommands (or an empty list), a
command passes the allow-list check exactly when it starts with one of
the seven literal default entries; since matching is by string prefix,
every command whose text begins with the characters node — such as a
nodemon invocation — passes as well. -/
theorem default_allowlist_prefix_based :
    (∀ (regexTest : String → String → Bool) (command : String),
       isCommandAllowed regexTest command none =
         defaultAllowed.any (fun p => jsStartsWith command p)) ∧
    (∀ (regexTest : String → String → Bool) (command : String),
       isCommandAllowed regexTest command (some []) =
         defaultAllowed.any (fun p => jsStartsWith command p)) ∧
    (∀ (regexTest : String → String → Bool) (rest : String),
       isCommandAllowed regexTest ("node" ++ rest) none = true) ∧
    isCommandAllowed (fun _ _ => false) "nodemon --watch src server.js" none
      = true := by
  refine ⟨fun _ _ => rfl, fun _ _ => rfl, fun regexTest rest => ?_, by decide⟩
  simp [isCommandAllowed, defaultAllowed, jsStartsWith_append]

/-- C3: a command that matches no entry of the effective allow-list makes
executeTests return a failed result immediately, with no process spawned
(`TestsRun.noSpawn`); matching is by literal prefix or, for entries
written as /.../, by the regular expression between the slashes, as
embedded in isCommandAllowed. -/
theorem executeTests_disallowed_no_spawn
    (regexTest : String → String → Bool) (cmd : String)
    (allowed : Option (List String)) (elapsed : Nat)
    (setup : Option String) (ev : ProcEvent)
    (h : isCommandAllowed regexTest cmd allowed = false) :
    executeTests regexTest cmd allowed elapsed setup ev =
      .noSpawn { success := false, stdout := "",
                 stderr := "Command not allowed: " ++ cmd,
                 exitCode := 1, duration := elapsed } := by
  simp [executeTests, h]

theorem executeTests_disallowed_no_spawn_witness :
    isCommandAllowed (fun _ _ => false) "rm -rf /" none = false ∧
    executeTests (fun _ _ => false) "rm -rf /" none 5 none
      (.closed (some 0) "" "")
      = .noSpawn { success := false, stdout := "",
                   stderr := "Command not allowed: rm -rf /",
                   exitCode := 1, duration := 5 } := by
  refine ⟨by decide, ?_⟩
  have h := executeTests_disallowed_no_spawn (fun _ _ => false) "rm -rf /"
    none 5 none (.closed (some 0) "" "") (by decide)
  rw [h]
  decide

/-- C8: generateSandboxId is a pure, deterministic function of the
content: equal content yields an equal id. In this embedding the id is
the full SHA-256 hex digest of the UTF-8 bytes of the content, truncated
to 16 characters, and depends on no other state. -/
theorem generateSandboxId_pure (a b : String) (h : a = b) :
    generateSandboxId a = generateSandboxId b := by rw [h]

theorem generateSandboxId_pure_witness :
    "npm test" = "npm test" ∧
    generateSandboxId "npm test" = generateSandboxId "npm test" :=
  ⟨rfl, generateSandboxId_pure "npm test" "npm test" rfl⟩

/-- C6 counterexample: two failure modes refute the claim. A test process
killed by the timeout timer or by a cancellation raises a close event
whose code is null before necessarily writing anything to stderr, so
executeTests resolves with success false but with an empty stderr and
exit code 0 (`code || 0`) — not populated. And for the allowed command
consisting of one space under the allow-list containing the empty
string, the tokenizer yields no parts, so spawn is applied to an
undefined cmd and throws synchronously inside the promise executor; the
catch block does not see it (it wraps `return new Promise` without
awaiting), and executeTests rejects to its caller instead of returning
any SandboxExecutionResult. -/
theorem executeTests_failures_counterexample :
    executeTests (fun _ _ => false) "npm test" none 60000 none
      (.closed none "" "")
      = .spawned ["npm", "test"]
          { success := false, stdout := "", stderr := "", exitCode := 0,
            duration := 60000 } ∧
    executeTests (fun _ _ => false) " " (some [""]) 0 none
      (.closed (some 0) "" "") = .thrown := by decide

/-- C6 amended: executeInVM never throws — each losing branch of its race
lands in the catch block and returns success false with a populated
stderr (whenever the underlying error message is nonempty) and a nonzero
exitCode. executeTests returns a failed result with populated stderr and
exitCode 1 for a disallowed command and for a pre-spawn setup failure,
and a success-false result for every non-zero-exit process event; but it
is not exception-free: when an allowed command tokenizes to an empty
argument list, the synchronous spawn error rejects the returned promise
past the catch block (a throw to the caller), and the close event of a
killed test process carries a null code, yielding exitCode 0 and only
the stderr accumulated before the kill. -/
theorem sandbox_failures_normalized :
    (∀ (src : String) (e : Nat) (out err : Option String) (msg : String)
       (c : Option Int), msg ≠ "" →
       (executeInVM src e (.execRejected out err msg c)).success = false ∧
       (executeInVM src e (.execRejected out err msg c)).stderr ≠ "" ∧
       (executeInVM src e (.execRejected out err msg c)).exitCode ≠ 0) ∧
    (∀ (src : String) (e t : Nat),
       (executeInVM src e (.timeoutWon t)).success = false ∧
       (executeInVM src e (.timeoutWon t)).stderr ≠ "" ∧
       (executeInVM src e (.timeoutWon t)).exitCode = 1) ∧
    (∀ (src : String) (e : Nat),
       (executeInVM src e .cancelledWon).success = false ∧
       (executeInVM src e .cancelledWon).stderr ≠ "" ∧
       (executeInVM src e .cancelledWon).exitCode = 1) ∧
    (∀ (rt : String → String → Bool) (cmd : String)
       (al : Option (List String)) (e : Nat) (setup : Option String)
       (ev : ProcEvent),
       isCommandAllowed rt cmd al = false →
       executeTests rt cmd al e setup ev =
         .noSpawn { success := false, stdout := "",
                    stderr := "Command not allowed: " ++ cmd,
                    exitCode := 1, duration := e }) ∧
    (∀ (rt : String → String → Bool) (cmd : String)
       (al : Option (List String)) (e : Nat) (msg : String)
       (ev : ProcEvent),
       isCommandAllowed rt cmd al = true →
       executeTests rt cmd al e (some msg) ev =
         .noSpawn { success := false, stdout := "", stderr := msg,
                    exitCode := 1, duration := e }) ∧
    (∀ (rt : String → String → Bool) (cmd : String)
       (al : Option (List String)) (e : Nat) (ev : ProcEvent),
       isCommandAllowed rt cmd al = true → parseCommand cmd = [] →
       executeTests rt cmd al e none ev = .thrown) ∧
    (∀ (rt : String → String → Bool) (cmd : String)
       (al : Option (List String)) (e : Nat) (c : String)
       (args : List String) (msg out err2 : String),
       isCommandAllowed rt cmd al = true → parseCommand cmd = c :: args →
       executeTests rt cmd al e none (.errored msg out err2) =
         .spawned (c :: args)
           { success := false, stdout := out, stderr := msg, exitCode := 1,
             duration := e }) ∧
    (∀ (rt : String → String → Bool) (cmd : String)
       (al : Option (List String)) (e : Nat) (code : Option Int)
       (c : String) (args : List String) (out err2 : String),
       isCommandAllowed rt cmd al = true → parseCommand cmd = c :: args →
       code ≠ some 0 →
       executeTests rt cmd al e none (.closed code out err2) =
         .spawned (c :: args)
           { success := false, stdout := out, stderr := err2,
             exitCode := jsOrZero code, duration := e }) := by
  refine ⟨?_, ?_, ?_, ?_, ?_, ?_, ?_, ?_⟩
  · intro src e out err msg c hmsg
    refine ⟨rfl, ?_, ?_⟩
    · exact jsOrStr_ne_empty err msg hmsg
    · exact jsOrOne_ne_zero c
  · intro src e t
    refine ⟨rfl, ?_, rfl⟩
    exact ne_empty_of_data_ne_nil _
      (data_append_ne_nil _ _ (data_append_ne_nil _ _ (by decide)))
  · intro src e
    refine ⟨rfl, ?_, rfl⟩
    show ("Execution cancelled" : String) ≠ ""
    decide
  · intro rt cmd al e setup ev h
    simp [executeTests, h]
  · intro rt cmd al e msg ev h
    simp [executeTests, h]
  · intro rt cmd al e ev h hp
    simp [executeTests, h, hp]
  · intro rt cmd al e c args msg out err2 h hp
    simp [executeTests, h, hp]
  · intro rt cmd al e code c args out err2 h hp hc
    simp [executeTests, h, hp, hc]

theorem sandbox_failures_normalized_witness :
    ("spawn ENOENT" : String) ≠ "" ∧
    (executeInVM "x" 7 (.execRejected none none "spawn ENOENT" none)).success
      = false ∧
    (executeInVM "x" 7 (.execRejected none none "spawn ENOENT" none)).stderr
      ≠ "" ∧
    (executeInVM "x" 7 (.execRejected none none "spawn ENOENT" none)).exitCode
      ≠ 0 := by
  refine ⟨by decide, ?_⟩
  exact sandbox_failures_normalized.1 "x" 7 none none "spawn ENOENT" none
    (by decide)

end Sandbox

namespace Agent

/-- C1 counterexample: with a completion provider configured, a failure of
the provider call (the model being unavailable) is rethrown by the catch
block of planTask (agentServiceImpl.ts lines 103-106) instead of being
converted into the fallback plan, so planTask throws in a case where the
claim says it returns the fallback. -/
theorem planTask_provider_failure_throws :
    planTask (fun _ => .error "unused") (some "model-1") "fix the bug"
      (.failure "model unavailable") = .error "model unavailable" := rfl

/-- C1 amended: with a provider configured, planTask returns the
deterministic fallback plan exactly when the response text contains no
bracketed array match; a rejection of the provider call and a JSON.parse
failure on the matched text are both rethrown to the caller; and the
configuration error is thrown when no provider is configured at all. -/
theorem planTask_fallback_amended
    (jsonParse : String → Except String (List PlanStep))
    (model description : String) :
    (∀ msg, planTask jsonParse (some model) description (.failure msg)
       = .error msg) ∧
    (∀ text, jsonArrayMatch text.data = none →
       planTask jsonParse (some model) description (.response text)
         = .ok (fallbackPlan description)) ∧
    (∀ text m, jsonArrayMatch text.data = some m →
       planTask jsonParse (some model) description (.response text)
         = (match jsonParse (String.mk m) with
            | .ok steps => .ok ⟨steps⟩
            | .error e => .error e)) ∧
    (∀ outcome, planTask jsonParse none description outcome
       = .error "No AI model configured") := by
  refine ⟨fun msg => rfl, ?_, ?_, fun outcome => rfl⟩
  · intro text h
    simp [planTask, h]
  · intro text m h
    simp [planTask, h]

theorem planTask_fallback_amended_witness :
    jsonArrayMatch ("I would search, then edit." : String).data = none ∧
    planTask (fun _ => .error "bad json") (some "model-1") "add tests"
      (.response "I would search, then edit.")
      = .ok (fallbackPlan "add tests") := by
  refine ⟨by decide, ?_⟩
  exact (planTask_fallback_amended (fun _ => .error "bad json") "model-1"
    "add tests").2.1 "I would search, then edit." (by decide)

/-- isTerminal: the three terminal task statuses. -/
def isTerminal : TaskStatus → Bool
  | .completed => true
  | .failed => true
  | .cancelled => true
  | _ => false

/-- C2 counterexample: a task with no steps runs to the terminal status
Completed, but executeSteps never removes the cancellation source from
the side table, so a later cancelTask call overwrites the terminal status
with Cancelled — a mutation after a terminal state was reached. -/
theorem terminal_status_overwritten :
    (run [] true [.beginIter] (initSys [])).task.status = .completed ∧
    (run [] true [.beginIter, .cancelTaskAct] (initSys [])).task.status
      = .cancelled := ⟨rfl, rfl⟩

/-- C2 amended: the task status only ever changes to a terminal status
(never back to Pending or Running), and terminal statuses stay terminal;
but one terminal status can still be overwritten by another — by a
cancelTask whose cancellation source survived self-termination, or by
the still-unwinding step loop after a mid-step cancellation. Once the
cancellation source is gone and the loop has returned, no operation
changes the task (or any other part of the state) again. -/
theorem task_status_monotonic_amended (names : List String) (stop : Bool) :
    (∀ a s, (applyAction names stop a s).task.status = s.task.status ∨
       isTerminal (applyAction names stop a s).task.status = true) ∧
    (∀ a s, isTerminal s.task.status = true →
       isTerminal (applyAction names stop a s).task.status = true) ∧
    (∀ acts s, s.inCancelTable = false → s.loopActive = false →
       run names stop acts s = s) := by
  have hfix : ∀ a s, s.inCancelTable = false → s.loopActive = false →
      applyAction names stop a s = s := by
    intro a s h1 h2
    cases a with
    | cancelTaskAct => simp [applyAction, h1]
    | beginIter => simp [applyAction, h2]
    | endIter out => simp [applyAction, h2]
  have hmono : ∀ a s, (applyAction names stop a s).task.status
      = s.task.status ∨
      isTerminal (applyAction names stop a s).task.status = true := by
    intro a s
    cases a with
    | cancelTaskAct =>
      by_cases h : s.inCancelTable
      · right; simp [applyAction, h, isTerminal]
      · left; simp [applyAction, h]
    | beginIter =>
      by_cases hg : s.loopActive = true ∧ s.phase = Phase.idle
      · by_cases hpc : s.pc < names.length
        · by_cases hcr : s.cancelRequested = true
          · right; simp [applyAction, hg, hpc, hcr, isTerminal]
          · left; simp [applyAction, hg, hpc, hcr, markRunning]
        · right; simp [applyAction, hg, hpc, isTerminal]
      · left; simp [applyAction, hg]
    | endIter out =>
      by_cases hg : s.loopActive = true ∧ s.phase = Phase.inStep
      · cases out with
        | success => left; simp [applyAction, hg, completeStep]
        | failure msg =>
          by_cases hst : stop = true
          · right; simp [applyAction, hg, hst, isTerminal]
          · left; simp [applyAction, hg, hst, failStep]
      · left; simp [applyAction, hg]
  refine ⟨hmono, ?_, ?_⟩
  · intro a s h
    rcases hmono a s with heq | ht
    · rw [heq]; exact h
    · exact ht
  · intro acts
    induction acts with
    | nil => intro s _ _; rfl
    | cons a as ih =>
      intro s h1 h2
      show run names stop as (applyAction names stop a s) = s
      rw [hfix a s h1 h2]
      exact ih s h1 h2

theorem task_status_monotonic_amended_witness :
    ({ task := { status := .completed, steps := [pendingStep "a"],
                 currentStep := 0, error := none },
       inCancelTable := false, cancelRequested := false, pc := 1,
       loopActive := false, phase := .idle } : SysState).inCancelTable
      = false ∧
    run ["a"] true [.cancelTaskAct, .beginIter]
      { task := { status := .completed, steps := [pendingStep "a"],
                  currentStep := 0, error := none },
        inCancelTable := false, cancelRequested := false, pc := 1,
        loopActive := false, phase := .idle }
      = { task := { status := .completed, steps := [pendingStep "a"],
                    currentStep := 0, error := none },
          inCancelTable := false, cancelRequested := false, pc := 1,
          loopActive := false, phase := .idle } := by
  refine ⟨rfl, ?_⟩
  exact (task_status_monotonic_amended ["a"] true).2.2
    [.cancelTaskAct, .beginIter] _ rfl rfl

/-- C9 counterexample: when the task reaches the terminal Completed status
by itself, executeSteps leaves the cancellation source in the side table
(only cancelTask deletes it, agentServiceImpl.ts line 179), contradicting
the claim that it is removed whenever a terminal state is reached. -/
theorem cancellation_entry_leak :
    (run [] true [.beginIter] (initSys [])).task.status = .completed ∧
    (run [] true [.beginIter] (initSys [])).inCancelTable = true :=
  ⟨rfl, rfl⟩

/-- C9 amended: the cancellation source is entered into the side table
when the task is created, and it is removed exactly by an explicit
cancelTask call (which also makes later cancelTask calls no-ops); the
step loop — including the transitions into the terminal statuses — never
removes it. -/
theorem cancellation_table_amended (names : List String) (stop : Bool) :
    (∀ ns, (initSys ns).inCancelTable = true) ∧
    (∀ s, (applyAction names stop .cancelTaskAct s).inCancelTable = false) ∧
    (∀ s, (applyAction names stop .beginIter s).inCancelTable
       = s.inCancelTable) ∧
    (∀ s out, (applyAction names stop (.endIter out) s).inCancelTable
       = s.inCancelTable) := by
  refine ⟨fun ns => rfl, ?_, ?_, ?_⟩
  · intro s
    by_cases h : s.inCancelTable
    · simp [applyAction, h]
    · simp [applyAction, h]
  · intro s
    by_cases hg : s.loopActive = true ∧ s.phase = Phase.idle
    · by_cases hpc : s.pc < names.length
      · by_cases hcr : s.cancelRequested = true
        · simp [applyAction, hg, hpc, hcr]
        · simp [applyAction, hg, hpc, hcr]
      · simp [applyAction, hg, hpc]
    · simp [applyAction, hg]
  · intro s out
    by_cases hg : s.loopActive = true ∧ s.phase = Phase.inStep
    · cases out with
      | success => simp [applyAction, hg]
      | failure msg =>
        by_cases hst : stop = true
        · simp [applyAction, hg, hst]
        · simp [applyAction, hg, hst]
    · simp [applyAction, hg]

end Agent

namespace Sandbox

theorem exists_append_of_isPrefixOf {l s : List Char}
    (h : l.isPrefixOf s = true) : ∃ t, s = l ++ t := by
  induction l generalizing s with
  | nil => exact ⟨s, rfl⟩
  | cons c cs ih =>
    cases s with
    | nil => simp [List.isPrefixOf] at h
    | cons d ds =>
      simp only [List.isPrefixOf, Bool.and_eq_true, beq_iff_eq] at h
      rcases h with ⟨rfl, h2⟩
      rcases ih h2 with ⟨t, rfl⟩
      exact ⟨t, rfl⟩

theorem patSearch_of_containsSub (p : List PatTok) (needle : List Char)
    (hmatch : ∀ t : List Char, matchToks p (needle ++ t) = true) :
    ∀ s, containsSub needle s = true → patSearch p s = true := by
  intro s
  induction s with
  | nil =>
    intro h
    simp only [containsSub] at h
    rcases exists_append_of_isPrefixOf h with ⟨t, ht⟩
    have hm := hmatch t
    rw [← ht] at hm
    rw [patSearch]
    exact hm
  | cons c cs ih =>
    intro h
    simp only [containsSub, Bool.or_eq_true] at h
    rcases h with h | h
    · rcases exists_append_of_isPrefixOf h with ⟨t, ht⟩
      have hm := hmatch t
      rw [← ht] at hm
      simp [patSearch, hm]
    · simp [patSearch, ih h]

theorem matchToks_evalPat_append (t : List Char) :
    matchToks evalPat (['e', 'v', 'a', 'l', '('] ++ t) = true := by
  simp [evalPat, matchToks, List.isPrefixOf]

theorem patSearch_evalPat_of_containsSub (s : List Char)
    (h : containsSub "eval(".data s = true) : patSearch evalPat s = true :=
  patSearch_of_containsSub evalPat "eval(".data
    (fun t => matchToks_evalPat_append t) s h

theorem mem_fileErrors {f : FileChange} {p : List PatTok × String}
    (hp : p ∈ dangerousPatterns) (hm : patSearch p.1 f.content = true) :
    ("Dangerous pattern detected in " ++ f.uriString ++ ": " ++ p.2)
      ∈ fileErrors f := by
  simp only [fileErrors]
  exact List.mem_map.mpr ⟨p, List.mem_filter.mpr ⟨hp, by simpa using hm⟩, rfl⟩

theorem mem_joinErrors {e : String} {f : FileChange} {files : List FileChange}
    (hf : f ∈ files) (he : e ∈ fileErrors f) : e ∈ joinErrors files := by
  induction files with
  | nil => cases hf
  | cons g gs ih =>
    rcases List.mem_cons.mp hf with rfl | hmem
    · exact List.mem_append.mpr (Or.inl he)
    · exact List.mem_append.mpr (Or.inr (ih hmem))

theorem validateChanges_errors_eq (files : List FileChange) (skip : Bool)
    (tsf : Option String) :
    (validateChanges files skip tsf).errors =
      if (files.any isTsFile) ∧ ¬skip then
        match tsf with
        | some m => joinErrors files ++ ["TypeScript validation failed: " ++ m]
        | none => joinErrors files
      else joinErrors files := rfl

theorem mem_errors_of_mem_joinErrors (files : List FileChange) (skip : Bool)
    (tsf : Option String) {e : String} (h : e ∈ joinErrors files) :
    e ∈ (validateChanges files skip tsf).errors := by
  rw [validateChanges_errors_eq]
  by_cases hc : (files.any isTsFile) ∧ ¬skip
  · rw [if_pos hc]
    cases tsf with
    | some m => exact List.mem_append.mpr (Or.inl h)
    | none => exact h
  · rw [if_neg hc]
    exact h

/-- C7: validateChanges returns valid exactly when the collected error
list is empty; every dangerous-pattern match of every file contributes
one error naming that file (all violations are reported, not only the
first); and in particular content containing the text eval( makes the
result invalid with an error naming that file. -/
theorem validateChanges_collects_all_violations (files : List FileChange)
    (skip : Bool) (tsf : Option String) :
    ((validateChanges files skip tsf).valid = true ↔
       (validateChanges files skip tsf).errors = []) ∧
    (∀ f, f ∈ files → ∀ p, p ∈ dangerousPatterns →
       patSearch p.1 f.content = true →
       ("Dangerous pattern detected in " ++ f.uriString ++ ": " ++ p.2)
         ∈ (validateChanges files skip tsf).errors) ∧
    (∀ f, f ∈ files → containsSub "eval(".data f.content = true →
       (validateChanges files skip tsf).valid = false ∧
       ("Dangerous pattern detected in " ++ f.uriString ++ ": "
          ++ "/eval\\s*\\(/") ∈ (validateChanges files skip tsf).errors) := by
  have hvalid : (validateChanges files skip tsf).valid
      = (validateChanges files skip tsf).errors.isEmpty := rfl
  have hmem : ∀ f, f ∈ files → ∀ p, p ∈ dangerousPatterns →
      patSearch p.1 f.content = true →
      ("Dangerous pattern detected in " ++ f.uriString ++ ": " ++ p.2)
        ∈ (validateChanges files skip tsf).errors := by
    intro f hf p hp hm
    exact mem_errors_of_mem_joinErrors files skip tsf
      (mem_joinErrors hf (mem_fileErrors hp hm))
  refine ⟨?_, hmem, ?_⟩
  · rw [hvalid]
    exact List.isEmpty_iff
  · intro f hf hev
    have hps := patSearch_evalPat_of_containsSub f.content hev
    have hin := hmem f hf (evalPat, "/eval\\s*\\(/") (by simp [dangerousPatterns]) hps
    refine ⟨?_, hin⟩
    rw [hvalid]
    cases hemp : (validateChanges files skip tsf).errors with
    | nil => rw [hemp] at hin; cases hin
    | cons x xs => rfl

theorem validateChanges_collects_all_violations_witness :
    (⟨"file:///a.js", "/a.js", "x = eval( y )".data⟩ : FileChange)
      ∈ [(⟨"file:///a.js", "/a.js", "x = eval( y )".data⟩ : FileChange)] ∧
    containsSub "eval(".data "x = eval( y )".data = true ∧
    (validateChanges [⟨"file:///a.js", "/a.js", "x = eval( y )".data⟩]
       false none).valid = false ∧
    ("Dangerous pattern detected in " ++ "file:///a.js" ++ ": "
       ++ "/eval\\s*\\(/")
      ∈ (validateChanges [⟨"file:///a.js", "/a.js", "x = eval( y )".data⟩]
          false none).errors := by
  refine ⟨List.mem_singleton.mpr rfl, by decide, ?_⟩
  exact (validateChanges_collects_all_violations
    [⟨"file:///a.js", "/a.js", "x = eval( y )".data⟩] false none).2.2
    ⟨"file:///a.js", "/a.js", "x = eval( y )".data⟩
    (List.mem_singleton.mpr rfl) (by decide)

end Sandbox

namespace Agent

theorem length_updNth (f : StepState → StepState) :
    ∀ (i : Nat) (l : List StepState), (updNth f i l).length = l.length := by
  intro i l
  induction l generalizing i with
  | nil => cases i <;> rfl
  | cons x xs ih =>
    cases i with
    | zero => rfl
    | succ n => simp [updNth, ih]

theorem getD_updNth_ne (f : StepState → StepState) (d : StepState) :
    ∀ (i j : Nat) (l : List StepState), i ≠ j →
      (updNth f i l).getD j d = l.getD j d := by
  intro i j l
  induction l generalizing i j with
  | nil => intro _; cases i <;> rfl
  | cons x xs ih =>
    intro hne
    cases i with
    | zero =>
      cases j with
      | zero => exact absurd rfl hne
      | succ m => rfl
    | succ n =>
      cases j with
      | zero => rfl
      | succ m =>
        simpa [updNth] using ih n m (fun h => hne (by rw [h]))

theorem getD_updNth_self (f : StepState → StepState) (d : StepState) :
    ∀ (i : Nat) (l : List StepState), i < l.length →
      (updNth f i l).getD i d = f (l.getD i d) := by
  intro i l
  induction l generalizing i with
  | nil => intro h; simp at h
  | cons x xs ih =>
    intro h
    cases i with
    | zero => rfl
    | succ n => simpa [updNth] using ih n (by simpa using h)

theorem steps_length_markRunning (t : TaskState) (i : Nat) :
    (markRunning t i).steps.length = t.steps.length := by
  simp [markRunning, length_updNth]

theorem steps_length_completeStep (t : TaskState) (i : Nat) :
    (completeStep t i).steps.length = t.steps.length := by
  simp [completeStep, length_updNth]

theorem steps_length_failStep (t : TaskState) (i : Nat) (msg : String) :
    (failStep t i msg).steps.length = t.steps.length := by
  simp [failStep, length_updNth]

theorem stepLoop_exit (names : List String) (stop : Bool)
    (cf : Option Nat) (outs : Nat → StepOutcome) (i : Nat) (t : TaskState)
    (h : ¬ i < names.length) :
    stepLoop names stop cf outs i t = { t with status := .completed } := by
  rw [stepLoop]
  simp [h]

theorem stepLoop_cancelled (names : List String) (stop : Bool)
    (cf : Option Nat) (outs : Nat → StepOutcome) (i : Nat) (t : TaskState)
    (h1 : i < names.length) (h2 : cancelSeen cf i = true) :
    stepLoop names stop cf outs i t = { t with status := .cancelled } := by
  rw [stepLoop]
  simp [h1, h2]

theorem stepLoop_success_step (names : List String) (stop : Bool)
    (cf : Option Nat) (outs : Nat → StepOutcome) (i : Nat) (t : TaskState)
    (h1 : i < names.length) (h2 : cancelSeen cf i = false)
    (h3 : outs i = .success) :
    stepLoop names stop cf outs i t
      = stepLoop names stop cf outs (i + 1)
          (completeStep (markRunning t i) i) := by
  rw [stepLoop]
  simp [h1, h2, h3]

theorem stepLoop_failure_stop_step (names : List String)
    (cf : Option Nat) (outs : Nat → StepOutcome) (i : Nat) (t : TaskState)
    (msg : String) (h1 : i < names.length) (h2 : cancelSeen cf i = false)
    (h3 : outs i = .failure msg) :
    stepLoop names true cf outs i t
      = { failStep (markRunning t i) i msg with
          status := .failed,
          error := some (failMessage names i msg) } := by
  rw [stepLoop]
  simp [h1, h2, h3]

theorem stepLoop_failure_continue_step (names : List String)
    (cf : Option Nat) (outs : Nat → StepOutcome) (i : Nat) (t : TaskState)
    (msg : String) (h1 : i < names.length) (h2 : cancelSeen cf i = false)
    (h3 : outs i = .failure msg) :
    stepLoop names false cf outs i t
      = stepLoop names false cf outs (i + 1)
          (failStep (markRunning t i) i msg) := by
  rw [stepLoop]
  simp [h1, h2, h3]

theorem initTask_steps_getD (names : List String) (j : Nat) (d : StepState)
    (h : j < names.length) :
    (initTask names).steps.getD j d = pendingStep (names.getD j "") := by
  show (names.map pendingStep).getD j d = pendingStep (names.getD j "")
  induction names generalizing j with
  | nil => simp at h
  | cons x xs ih =>
    cases j with
    | zero => rfl
    | succ m => simpa using ih m (by simpa using h)

end Agent

namespace Agent

/-- settle s out: the net effect of one loop iteration on the step record
it processes — Running then Completed with a result, or Running then
Failed with the error attached. -/
def settle (s : StepState) : StepOutcome → StepState
  | .success => { s with status := .completed, hasResult := true }
  | .failure m => { s with status := .failed, error := some m }

theorem steps_markRunning (t : TaskState) (i : Nat) :
    (markRunning t i).steps
      = updNth (fun s => { s with status := .running }) i t.steps := rfl

theorem steps_completeStep (t : TaskState) (i : Nat) :
    (completeStep t i).steps
      = updNth (fun s => { s with status := .completed, hasResult := true })
          i t.steps := rfl

theorem steps_failStep (t : TaskState) (i : Nat) (msg : String) :
    (failStep t i msg).steps
      = updNth (fun s => { s with status := .failed, error := some msg })
          i t.steps := rfl

theorem getD_completeStep_markRunning_ne (t : TaskState) (i j : Nat)
    (d : StepState) (hne : i ≠ j) :
    (completeStep (markRunning t i) i).steps.getD j d = t.steps.getD j d := by
  rw [steps_completeStep, steps_markRunning,
    getD_updNth_ne _ _ _ _ _ hne, getD_updNth_ne _ _ _ _ _ hne]

theorem getD_failStep_markRunning_ne (t : TaskState) (i j : Nat)
    (msg : String) (d : StepState) (hne : i ≠ j) :
    (failStep (markRunning t i) i msg).steps.getD j d
      = t.steps.getD j d := by
  rw [steps_failStep, steps_markRunning,
    getD_updNth_ne _ _ _ _ _ hne, getD_updNth_ne _ _ _ _ _ hne]

theorem getD_completeStep_markRunning_self (t : TaskState) (i : Nat)
    (d : StepState) (hi : i < t.steps.length) :
    (completeStep (markRunning t i) i).steps.getD i d
      = { t.steps.getD i d with status := .completed, hasResult := true } := by
  rw [steps_completeStep, steps_markRunning]
  rw [getD_updNth_self _ _ _ _ (by rw [length_updNth]; exact hi)]
  rw [getD_updNth_self _ _ _ _ hi]

theorem getD_failStep_markRunning_self (t : TaskState) (i : Nat)
    (msg : String) (d : StepState) (hi : i < t.steps.length) :
    (failStep (markRunning t i) i msg).steps.getD i d
      = { t.steps.getD i d with status := .failed, error := some msg } := by
  rw [steps_failStep, steps_markRunning]
  rw [getD_updNth_self _ _ _ _ (by rw [length_updNth]; exact hi)]
  rw [getD_updNth_self _ _ _ _ hi]

theorem stepLoop_stop_first_failure (names : List String)
    (outs : Nat → StepOutcome) (k : Nat) (msg : String)
    (hk : k < names.length) (hfail : outs k = .failure msg) :
    ∀ (n i : Nat) (t : TaskState), k - i = n → i ≤ k →
      (∀ j, i ≤ j → j < k → outs j = .success) →
      t.steps.length = names.length →
      (stepLoop names true none outs i t).status = .failed ∧
      (stepLoop names true none outs i t).error
        = some (failMessage names k msg) ∧
      (∀ d, (stepLoop names true none outs i t).steps.getD k d
        = { t.steps.getD k d with status := .failed, error := some msg }) ∧
      (∀ j d, k < j → (stepLoop names true none outs i t).steps.getD j d
        = t.steps.getD j d) := by
  intro n
  induction n with
  | zero =>
    intro i t hn hik _ hlen
    have hik2 : i = k := by omega
    subst hik2
    rw [stepLoop_failure_stop_step names none outs i t msg hk rfl hfail]
    refine ⟨rfl, rfl, ?_, ?_⟩
    · intro d
      show (failStep (markRunning t i) i msg).steps.getD i d = _
      exact getD_failStep_markRunning_self t i msg d (by omega)
    · intro j d hkj
      show (failStep (markRunning t i) i msg).steps.getD j d = _
      exact getD_failStep_markRunning_ne t i j msg d (by omega)
  | succ n ih =>
    intro i t hn hik hpre hlen
    have hilt : i < k := by omega
    have hlen2 : i < names.length := by omega
    rw [stepLoop_success_step names true none outs i t hlen2 rfl
      (hpre i (Nat.le_refl i) hilt)]
    have hlen3 : (completeStep (markRunning t i) i).steps.length
        = names.length := by
      rw [steps_length_completeStep, steps_length_markRunning, hlen]
    rcases ih (i + 1) (completeStep (markRunning t i) i) (by omega)
      (by omega) (fun j hj1 hj2 => hpre j (by omega) hj2) hlen3 with
      ⟨hs, he, hkd, hjd⟩
    refine ⟨hs, he, ?_, ?_⟩
    · intro d
      rw [hkd d, getD_completeStep_markRunning_ne t i k d (by omega)]
    · intro j d hkj
      rw [hjd j d hkj, getD_completeStep_markRunning_ne t i j d (by omega)]

theorem stepLoop_no_stop (names : List String) (outs : Nat → StepOutcome) :
    ∀ (n i : Nat) (t : TaskState), names.length - i = n →
      t.steps.length = names.length →
      (stepLoop names false none outs i t).status = .completed ∧
      (∀ j d, i ≤ j → j < names.length →
        (stepLoop names false none outs i t).steps.getD j d
          = settle (t.steps.getD j d) (outs j)) ∧
      (∀ j d, j < i →
        (stepLoop names false none outs i t).steps.getD j d
          = t.steps.getD j d) := by
  intro n
  induction n with
  | zero =>
    intro i t hn hlen
    have hi : ¬ i < names.length := by omega
    rw [stepLoop_exit names false none outs i t hi]
    refine ⟨rfl, ?_, fun j d _ => rfl⟩
    intro j d hij hjl
    omega
  | succ n ih =>
    intro i t hn hlen
    have hi : i < names.length := by omega
    cases hout : outs i with
    | success =>
      rw [stepLoop_success_step names false none outs i t hi rfl hout]
      have hlen3 : (completeStep (markRunning t i) i).steps.length
          = names.length := by
        rw [steps_length_completeStep, steps_length_markRunning, hlen]
      rcases ih (i + 1) (completeStep (markRunning t i) i) (by omega) hlen3
        with ⟨hs, hmid, hlow⟩
      refine ⟨hs, ?_, ?_⟩
      · intro j d hij hjl
        rcases Nat.eq_or_lt_of_le hij with rfl | hlt
        · rw [hlow i d (by omega),
            getD_completeStep_markRunning_self t i d (by omega), hout]
          rfl
        · rw [hmid j d (by omega) hjl,
            getD_completeStep_markRunning_ne t i j d (by omega)]
      · intro j d hji
        rw [hlow j d (by omega),
          getD_completeStep_markRunning_ne t i j d (by omega)]
    | failure msg =>
      rw [stepLoop_failure_continue_step names none outs i t msg hi rfl hout]
      have hlen3 : (failStep (markRunning t i) i msg).steps.length
          = names.length := by
        rw [steps_length_failStep, steps_length_markRunning, hlen]
      rcases ih (i + 1) (failStep (markRunning t i) i msg) (by omega) hlen3
        with ⟨hs, hmid, hlow⟩
      refine ⟨hs, ?_, ?_⟩
      · intro j d hij hjl
        rcases Nat.eq_or_lt_of_le hij with rfl | hlt
        · rw [hlow i d (by omega),
            getD_failStep_markRunning_self t i msg d (by omega), hout]
          rfl
        · rw [hmid j d (by omega) hjl,
            getD_failStep_markRunning_ne t i j msg d (by omega)]
      · intro j d hji
        rw [hlow j d (by omega),
          getD_failStep_markRunning_ne t i j msg d (by omega)]

theorem stepLoop_cancel_reached (names : List String) (stop : Bool)
    (outs : Nat → StepOutcome) (c : Nat) (hc : c < names.length) :
    ∀ (n i : Nat) (t : TaskState), c - i = n → i ≤ c →
      (∀ j, i ≤ j → j < c → outs j = .success) →
      t.steps.length = names.length →
      (stepLoop names stop (some c) outs i t).status = .cancelled ∧
      (∀ j d, c ≤ j →
        (stepLoop names stop (some c) outs i t).steps.getD j d
          = t.steps.getD j d) := by
  intro n
  induction n with
  | zero =>
    intro i t hn hik _ hlen
    have hik2 : i = c := by omega
    subst hik2
    rw [stepLoop_cancelled _ _ _ _ _ _ hc (by simp [cancelSeen])]
    exact ⟨rfl, fun j d _ => rfl⟩
  | succ n ih =>
    intro i t hn hik hpre hlen
    have hilt : i < c := by omega
    have hlen2 : i < names.length := by omega
    have hcs : cancelSeen (some c) i = false := by
      simp [cancelSeen]
      omega
    rw [stepLoop_success_step names stop (some c) outs i t hlen2 hcs
      (hpre i (Nat.le_refl i) hilt)]
    have hlen3 : (completeStep (markRunning t i) i).steps.length
        = names.length := by
      rw [steps_length_completeStep, steps_length_markRunning, hlen]
    rcases ih (i + 1) (completeStep (markRunning t i) i) (by omega)
      (by omega) (fun j hj1 hj2 => hpre j (by omega) hj2) hlen3 with
      ⟨hs, hjd⟩
    refine ⟨hs, ?_⟩
    intro j d hcj
    rw [hjd j d hcj, getD_completeStep_markRunning_ne t i j d (by omega)]

end Agent

namespace Agent

/-- C4: in the step-execution loop, when the handler of step k fails
(the earlier handlers having succeeded), step k becomes Failed with the
underlying message attached; with stopOnError the task becomes Failed
with a message naming the failing step and every later step stays
Pending (never processed); without stopOnError the loop continues
through all remaining steps and the task ends Completed with step k
still Failed. -/
theorem stepLoop_failure_policy (names : List String)
    (outs : Nat → StepOutcome) (k : Nat) (msg : String)
    (hk : k < names.length)
    (hpre : ∀ j, j < k → outs j = .success)
    (hfail : outs k = .failure msg) :
    ((stepLoop names true none outs 0 (initTask names)).status = .failed ∧
     (stepLoop names true none outs 0 (initTask names)).error
       = some (failMessage names k msg) ∧
     ((stepLoop names true none outs 0 (initTask names)).steps.getD k
        (pendingStep "")).status = .failed ∧
     ((stepLoop names true none outs 0 (initTask names)).steps.getD k
        (pendingStep "")).error = some msg ∧
     (∀ j, k < j → j < names.length →
        ((stepLoop names true none outs 0 (initTask names)).steps.getD j
           (pendingStep "")).status = .pending)) ∧
    ((stepLoop names false none outs 0 (initTask names)).status
       = .completed ∧
     ((stepLoop names false none outs 0 (initTask names)).steps.getD k
        (pendingStep "")).status = .failed ∧
     ((stepLoop names false none outs 0 (initTask names)).steps.getD k
        (pendingStep "")).error = some msg) := by
  have hlen : (initTask names).steps.length = names.length := by
    simp [initTask]
  rcases stepLoop_stop_first_failure names outs k msg hk hfail k 0
    (initTask names) (by omega) (by omega) (fun j _ hj2 => hpre j hj2)
    hlen with ⟨hs, he, hkd, hjd⟩
  rcases stepLoop_no_stop names outs names.length 0 (initTask names)
    (by omega) hlen with ⟨hs2, hmid2, _⟩
  refine ⟨⟨hs, he, ?_, ?_, ?_⟩, hs2, ?_, ?_⟩
  · rw [hkd (pendingStep "")]
  · rw [hkd (pendingStep "")]
  · intro j hkj hjl
    rw [hjd j (pendingStep "") hkj, initTask_steps_getD names j _ hjl]
    rfl
  · rw [hmid2 k (pendingStep "") (by omega) hk, hfail]
    rfl
  · rw [hmid2 k (pendingStep "") (by omega) hk, hfail]
    rfl

theorem stepLoop_failure_policy_witness :
    (0 : Nat) < (["search files", "apply edit"] : List String).length ∧
    (fun i => if i = 0 then StepOutcome.failure "boom"
              else StepOutcome.success) 0 = StepOutcome.failure "boom" ∧
    (stepLoop ["search files", "apply edit"] true none
      (fun i => if i = 0 then StepOutcome.failure "boom"
                else StepOutcome.success) 0
      (initTask ["search files", "apply edit"])).status = .failed := by
  refine ⟨by decide, rfl, ?_⟩
  exact ((stepLoop_failure_policy ["search files", "apply edit"]
    (fun i => if i = 0 then StepOutcome.failure "boom"
              else StepOutcome.success) 0 "boom" (by decide)
    (fun j hj => absurd hj (by omega)) rfl).1).1

/-- C5: cancellation of a running task is observed at step boundaries:
when the token is cancelled from boundary c on and the loop reaches that
boundary, the task status becomes Cancelled, the loop stops, and every
step not yet started stays Pending; and once the loop has unwound, no
action of the system ever changes any step again. -/
theorem cancellation_checked_at_boundaries (names : List String)
    (stop : Bool) (outs : Nat → StepOutcome) (c : Nat)
    (hc : c < names.length)
    (hpre : ∀ j, j < c → outs j = .success) :
    ((stepLoop names stop (some c) outs 0 (initTask names)).status
       = .cancelled ∧
     (∀ j, c ≤ j → j < names.length →
        ((stepLoop names stop (some c) outs 0 (initTask names)).steps.getD j
           (pendingStep "")).status = .pending)) ∧
    (∀ (a : Action) (s : SysState), s.loopActive = false →
       (applyAction names stop a s).task.steps = s.task.steps) := by
  rcases stepLoop_cancel_reached names stop outs c hc c 0 (initTask names)
    (by omega) (by omega) (fun j _ hj2 => hpre j hj2)
    (by simp [initTask]) with ⟨hs, hjd⟩
  refine ⟨⟨hs, ?_⟩, ?_⟩
  · intro j hcj hjl
    rw [hjd j (pendingStep "") hcj, initTask_steps_getD names j _ hjl]
    rfl
  · intro a s hla
    cases a with
    | cancelTaskAct =>
      by_cases h : s.inCancelTable
      · simp [applyAction, h]
      · simp [applyAction, h]
    | beginIter => simp [applyAction, hla]
    | endIter out => simp [applyAction, hla]

theorem cancellation_checked_at_boundaries_witness :
    (1 : Nat) < (["a", "b", "c"] : List String).length ∧
    (stepLoop ["a", "b", "c"] true (some 1) (fun _ => StepOutcome.success) 0
      (initTask ["a", "b", "c"])).status = .cancelled := by
  refine ⟨by decide, ?_⟩
  exact ((cancellation_checked_at_boundaries ["a", "b", "c"] true
    (fun _ => StepOutcome.success) 1 (by decide) (fun j _ => rfl)).1).1

end Agent



